import Mathlib

/-!
Verification of the tag codec and page-transport layer of the
AnycubicNFCTaggerQT5 repository against its natural-language specification.

The Python sources are shallowly embedded as executable Lean definitions:
bytes become natural numbers below 256, Python byte strings become lists of
naturals, Python text strings become lists of characters, fallible code
returns Option, and the PC/SC transport is abstracted as an explicit
function argument whose issued commands are logged where a claim needs
them.  Every definition follows the corresponding source function in
src/anycubic_nfc_qt5 (pcsc.py, nfc_fields.py, colors.py, sku.py,
main_window.py); comments name the source symbol.
-/

namespace AnycubicNFC

/-- Zero-pad a byte list on the right to exactly 4 bytes
(the pattern `chunk + b"\x00" * (4 - len(chunk))` used throughout pcsc.py). -/
def pad4 (l : List Nat) : List Nat :=
  l ++ List.replicate (4 - l.length) 0

/-- Split a byte string into 4-byte pages, zero-padding the final chunk
(the `for i in range(0, len(raw), 4)` loop of write_ascii_z). -/
def chunk4 : List Nat → List (List Nat)
  | [] => []
  | a :: b :: c :: d :: rest => [a, b, c, d] :: chunk4 rest
  | l => [pad4 l]

/-- bytes.decode("ascii", errors="ignore"): bytes at or above 128 are dropped. -/
def asciiIgnore (bs : List Nat) : List Nat :=
  bs.filter (· < 128)

/-! ## TLV scanner: find_ndef_tlv (pcsc.py lines 89-136) -/

/-- Result of find_ndef_tlv: the Python function returns either
(None, None, None) or a triple (value_offset, ndef_len, total_or_None). -/
inductive TlvResult where
  | notFound : TlvResult
  | found : Nat → Nat → Option Nat → TlvResult
deriving DecidableEq, Repr

/-- The while-loop of find_ndef_tlv.  The loop index i strictly increases on
every iteration, so a fuel of mem.length (the maximal number of iterations
possible while i < len(mem)) makes the recursion structural and total. -/
def findTlvGo (mem : List Nat) : Nat → Nat → TlvResult
  | 0, _ => .notFound
  | fuel + 1, i =>
    if i < mem.length then
      let t := mem.getD i 0
      if t = 0x00 then
        -- NULL TLV: i += 1; continue
        findTlvGo mem fuel (i + 1)
      else if t = 0xFE then
        -- Terminator TLV: break
        .notFound
      else if mem.length ≤ i + 1 then
        -- if i + 1 >= n: break
        .notFound
      else
        let l := mem.getD (i + 1) 0
        if t = 0x03 then
          if l ≠ 0xFF then
            if i + 2 + l ≤ mem.length then .found (i + 2) l (some (2 + l))
            else .found (i + 2) l none
          else if mem.length ≤ i + 3 then
            -- truncated extended length: break
            .notFound
          else
            let nlen := (mem.getD (i + 2) 0) * 256 + mem.getD (i + 3) 0
            if i + 4 + nlen ≤ mem.length then .found (i + 4) nlen (some (4 + nlen))
            else .found (i + 4) nlen none
        else
          -- skip non-NDEF TLV using the same short/extended length rule
          if l ≠ 0xFF then
            findTlvGo mem fuel (i + (2 + l))
          else if mem.length ≤ i + 3 then
            .notFound
          else
            findTlvGo mem fuel (i + (4 + ((mem.getD (i + 2) 0) * 256 + mem.getD (i + 3) 0)))
    else .notFound

/-- find_ndef_tlv: scan a Type 2 Tag TLV area for the NDEF TLV (tag 0x03). -/
def find_ndef_tlv (mem : List Nat) : TlvResult :=
  findTlvGo mem mem.length 0

example : find_ndef_tlv [0x03, 0x04, 9, 9, 9, 9, 0xFE] = .found 2 4 (some 6) := by decide
example : find_ndef_tlv [0xFE] = .notFound := by decide
example : find_ndef_tlv [0x03, 0xFF] = .notFound := by decide
example : find_ndef_tlv [0x03, 0x05, 1] = .found 2 5 none := by decide
example : find_ndef_tlv [0x00, 0x01, 0x01, 9, 0x03, 0x01, 7] = .found 6 1 (some 3) := by decide

/-! ## Zero-terminated ASCII codec: write_ascii_z / _read_ascii_z (pcsc.py) -/

/-- Page contents produced by write_ascii_z(conn, start_page, text, max_len):
raw = text.encode("ascii", errors="ignore")[:max_len] + b"\x00", written in
4-byte chunks with the final chunk zero-padded.  The string is modelled as
its list of character codes; the transport is modelled away, leaving the
list of 4-byte pages written at start_page, start_page+1, ... -/
def write_ascii_z (text : List Nat) (max_len : Nat) : List (List Nat) :=
  chunk4 ((asciiIgnore text).take max_len ++ [0])

/-- The while-loop of _read_ascii_z: keep appending 4-byte pages to buf while
len(buf) < max_len, stopping after the first page that contains a zero byte
or when no further page can be read (pages exhausted). -/
def readAsciiLoop (max_len : Nat) : List (List Nat) → List Nat → List Nat
  | [], buf => buf
  | b :: rest, buf =>
    if max_len ≤ buf.length then buf
    else if 0 ∈ b then buf ++ b
    else readAsciiLoop max_len rest (buf ++ b)

/-- _read_ascii_z(conn, start_page, max_len) over the given tag pages:
accumulate pages, then bytes(buf).split(b"\x00", 1)[0] (the bytes before the
first zero) decoded with errors="ignore". -/
def read_ascii_z (pages : List (List Nat)) (max_len : Nat) : List Nat :=
  asciiIgnore ((readAsciiLoop max_len pages []).takeWhile (· ≠ 0))

example : read_ascii_z (write_ascii_z [65, 66, 67, 68, 69] 32) 32 = [65, 66, 67, 68, 69] := by decide
example : read_ascii_z (write_ascii_z (List.replicate 32 65) 32) 32 = List.replicate 32 65 := by decide
-- the NUL character is ASCII, yet it cannot survive the zero-terminated rule
example : read_ascii_z (write_ascii_z [0] 32) 32 = [] := by decide

/-! ## Color codec: write_color_rgba_hex / _read_color_rgba_hex (pcsc.py)
and to_rgba_bytes (nfc_fields.py), normalize_hex_full (colors.py) -/

/-- Python str.strip() whitespace test (ASCII whitespace suffices here),
phrased on code points: space, tab, newline, carriage return. -/
def isPySpace (c : Char) : Bool :=
  c.toNat = 32 ∨ c.toNat = 9 ∨ c.toNat = 10 ∨ c.toNat = 13

/-- Python str.strip(): drop whitespace from both ends. -/
def pyStrip (s : List Char) : List Char :=
  ((s.dropWhile isPySpace).reverse.dropWhile isPySpace).reverse

/-- Python str.lstrip("#"): drop every leading '#'. -/
def lstripHash (s : List Char) : List Char :=
  s.dropWhile (· = '#')

/-- Value of a single hexadecimal digit, as accepted by int(_, 16);
code points 48-57 are 0-9, 65-70 are A-F, 97-102 are a-f. -/
def hexDigitVal (c : Char) : Option Nat :=
  if 48 ≤ c.toNat ∧ c.toNat ≤ 57 then some (c.toNat - 48)
  else if 65 ≤ c.toNat ∧ c.toNat ≤ 70 then some (c.toNat - 65 + 10)
  else if 97 ≤ c.toNat ∧ c.toNat ≤ 102 then some (c.toNat - 97 + 10)
  else none

/-- int(two-character slice, 16), for plain hexadecimal digit pairs. -/
def hexByte (c1 c2 : Char) : Option Nat := do
  let h ← hexDigitVal c1
  let l ← hexDigitVal c2
  pure (16 * h + l)

/-- The four int(s[i:i+2], 16) parses shared by write_color_rgba_hex and
to_rgba_bytes: the four byte values of an 8-character hex string, in
textual order. -/
def parse4 : List Char → Option (Nat × Nat × Nat × Nat)
  | [c1, c2, c3, c4, c5, c6, c7, c8] => do
    let p1 ← hexByte c1 c2
    let p2 ← hexByte c3 c4
    let p3 ← hexByte c5 c6
    let p4 ← hexByte c7 c8
    pure (p1, p2, p3, p4)
  | _ => none

/-- write_color_rgba_hex(conn, page, color_hex): strip whitespace and leading
'#', require 6 or 8 hex characters (6 gets alpha "FF" appended), parse
R,G,B,A pairs and store the page bytes in tag order [A, B, G, R].
Returns none where the source returns False (bad length) or raises
(non-hex digit): in both cases no page write happens. -/
def write_color_rgba_hex (color_hex : List Char) : Option (List Nat) :=
  let s := lstripHash (pyStrip color_hex)
  if s.length = 6 ∨ s.length = 8 then
    match parse4 (if s.length = 6 then s ++ ['F', 'F'] else s) with
    | some (r, g, b, a) => some [a, b, g, r]
    | none => none
  else none

/-- Uppercase hexadecimal digits, as used by the format f"{v:02X}". -/
def hexChars : List Char :=
  ['0', '1', '2', '3', '4', '5', '6', '7', '8', '9', 'A', 'B', 'C', 'D', 'E', 'F']

/-- One uppercase hexadecimal digit character. -/
def hexDigitChar (d : Nat) : Char :=
  hexChars.getD d '0'

/-- f"{n:02X}" for a byte value n. -/
def toHex2 (n : Nat) : List Char :=
  [hexDigitChar (n / 16 % 16), hexDigitChar (n % 16)]

/-- _read_color_rgba_hex(conn, page): given the 4 page bytes, reverse them to
[R, G, B, A] and render "#RRGGBBAA" with uppercase hex; none when the read
fails or does not yield exactly 4 bytes. -/
def read_color_rgba_hex (b : List Nat) : Option (List Char) :=
  match b with
  | [b0, b1, b2, b3] => some ('#' :: (toHex2 b3 ++ toHex2 b2 ++ toHex2 b1 ++ toHex2 b0))
  | _ => none

/-- Numeric value of a hexadecimal digit string (0 for a non-digit),
used to state that two hex renderings denote the same RGB value. -/
def hexValFrom (acc : Nat) : List Char → Nat
  | [] => acc
  | c :: cs => hexValFrom (16 * acc + (hexDigitVal c).getD 0) cs

def hexVal (l : List Char) : Nat := hexValFrom 0 l

example : write_color_rgba_hex "#800080".data = some [0xFF, 0x80, 0x00, 0x80] := by decide
example : (write_color_rgba_hex "#800080".data).bind read_color_rgba_hex
    = some "#800080FF".data := by decide
example : write_color_rgba_hex "#12345".data = none := by decide

/-- to_rgba_bytes(hex_full) from nfc_fields.py: strip, drop leading '#',
uppercase; empty input gives the fallback 00 00 00 FF; 6 digits get "FF"
appended; anything still shorter than 8 characters is right-padded with '0';
the first 8 characters are then parsed as four byte pairs.  none models the
ValueError raised on a non-hex character. -/
def to_rgba_bytes (hex_full : List Char) : Option (List Nat) :=
  let s := (lstripHash (pyStrip hex_full)).map Char.toUpper
  if s.length = 0 then some [0, 0, 0, 0xFF]
  else
    let s1 := if s.length = 6 then s ++ ['F', 'F'] else s
    let s2 := s1 ++ List.replicate (8 - s1.length) '0'
    match parse4 (s2.take 8) with
    | some (b0, b1, b2, b3) => some [b0, b1, b2, b3]
    | none => none

example : to_rgba_bytes "#800080".data = some [0x80, 0x00, 0x80, 0xFF] := by decide
example : to_rgba_bytes "#800080CC".data = some [0x80, 0x00, 0x80, 0xCC] := by decide
example : to_rgba_bytes "#8000".data = some [0x80, 0x00, 0x00, 0x00] := by decide
example : to_rgba_bytes "".data = some [0, 0, 0, 0xFF] := by decide

/-- normalize_hex_full(h) from colors.py: "#RRGGBBAA" uppercase if possible;
"#RRGGBB" becomes "#RRGGBBFF"; anything else becomes "#000000FF". -/
def normalize_hex_full (h : List Char) : List Char :=
  let s := pyStrip h
  if s.head? ≠ some '#' then "#000000FF".data
  else
    let s := s.map Char.toUpper
    if s.length = 7 then s ++ ['F', 'F']
    else if 9 ≤ s.length then s.take 9
    else "#000000FF".data

example : normalize_hex_full "#800080".data = "#800080FF".data := by decide
example : normalize_hex_full "800080".data = "#000000FF".data := by decide
example : normalize_hex_full "#8000".data = "#000000FF".data := by decide

/-! ## Page transport: read_single_page (pcsc.py lines 748-760) -/

/-- Response of conn.transmit: (data bytes, SW1, SW2). -/
structure TxResp where
  data : List Nat
  sw1 : Nat
  sw2 : Nat

/-- _cmd_read_page_group(start_page): APDU FF B0 00 (start_page & 0xFF) 10,
a 16-byte read of 4 consecutive pages. -/
def cmd_read_page_group (start_page : Nat) : List Nat :=
  [0xFF, 0xB0, 0x00, start_page % 256, 0x10]

/-- read_single_page(conn, page): issue the 16-byte group read at
base = page & ~0x03 (that is, page - page % 4), check SW1 = 0x90, slice the
4 bytes at offset (page & 0x03) * 4 and zero-pad a short slice to 4 bytes.
none models the RuntimeError raised on a bad status word. -/
def read_single_page (conn : List Nat → TxResp) (page : Nat) : Option (List Nat) :=
  let base := page - page % 4
  let r := conn (cmd_read_page_group base)
  if r.sw1 = 0x90 then
    let off := (page % 4) * 4
    let chunk := (r.data.drop off).take 4
    some (chunk ++ List.replicate (4 - chunk.length) 0)
  else none

example :
    read_single_page
      (fun apdu => if apdu = cmd_read_page_group 4 then
          ⟨[0, 1, 2, 3, 4, 5, 6, 7, 8, 9, 10, 11, 12, 13, 14, 15], 0x90, 0⟩
        else ⟨[], 0x6A, 0⟩) 6
    = some [8, 9, 10, 11] := by decide

/-! ## User-area policy: detect_user_area, write_raw_pages, clear_user_area
(pcsc.py lines 762-831, the later overriding definitions) -/

/-- The descriptor returned by detect_user_area. -/
structure UserArea where
  user_start : Nat
  user_end : Nat
  protectedPages : List Nat

/-- detect_user_area(conn): the hard-coded conservative heuristic. -/
def detect_user_area : UserArea :=
  { user_start := 0x04
    user_end := 0x29
    protectedPages := [0x00, 0x01, 0x02, 0x03, 0x2A, 0x2B, 0x2C, 0x2D] }

/-- The write transport is abstracted as a function from (page, 4 bytes) to
success; the functions below additionally log every transport write they
issue, so that the no-write-to-protected-pages invariant is expressible. -/
abbrev WriteTx := Nat → List Nat → Bool

/-- The page loop of write_raw_pages over the list of chunk indices:
returns (result map as an association list in loop order, log of issued
transport writes in loop order). -/
def wrpGo (wr : WriteTx) (start_page : Nat) (buf : List Nat) (skip_protected : Bool) :
    List Nat → List (Nat × Bool) × List (Nat × List Nat)
  | [] => ([], [])
  | i :: rest =>
    let p := start_page + i
    let slice4 := pad4 ((buf.drop (i * 4)).take 4)
    let r := wrpGo wr start_page buf skip_protected rest
    if ¬(detect_user_area.user_start ≤ p ∧ p < detect_user_area.user_end) then
      ((p, false) :: r.1, r.2)
    else if skip_protected ∧ p ∈ detect_user_area.protectedPages then
      ((p, false) :: r.1, r.2)
    else
      ((p, wr p slice4) :: r.1, (p, slice4) :: r.2)

/-- write_raw_pages(conn, start_page, data_bytes, skip_protected):
chunk data_bytes into (len+3)/4 pages and attempt each page in turn,
recording False without a transport call for pages outside
[user_start, user_end) or in the protected set. -/
def write_raw_pages (wr : WriteTx) (start_page : Nat) (data_bytes : List Nat)
    (skip_protected : Bool) : List (Nat × Bool) × List (Nat × List Nat) :=
  if data_bytes.length = 0 then ([], [])
  else wrpGo wr start_page data_bytes skip_protected
    (List.range ((data_bytes.length + 3) / 4))

/-- The page loop of clear_user_area: write 00 00 00 00 to every page of
[user_start, user_end), recording per-page success and the issued writes. -/
def cuaGo (wr : WriteTx) : List Nat → List (Nat × Bool) × List (Nat × List Nat)
  | [] => ([], [])
  | p :: rest =>
    let r := cuaGo wr rest
    ((p, wr p [0, 0, 0, 0]) :: r.1, (p, [0, 0, 0, 0]) :: r.2)

/-- clear_user_area(conn). -/
def clear_user_area (wr : WriteTx) : List (Nat × Bool) × List (Nat × List Nat) :=
  cuaGo wr (List.range' detect_user_area.user_start
    (detect_user_area.user_end - detect_user_area.user_start))

example :
    (write_raw_pages (fun _ _ => true) 0x28 [1, 2, 3, 4, 5, 6, 7, 8, 9, 10, 11, 12] true).1
    = [(0x28, true), (0x29, false), (0x2A, false)] := by decide
example :
    (write_raw_pages (fun _ _ => true) 0x28 [1, 2, 3, 4, 5, 6, 7, 8, 9, 10, 11, 12] true).2
    = [(0x28, [1, 2, 3, 4])] := by decide
example : (clear_user_area (fun _ _ => true)).1.length = 0x29 - 0x04 := by decide

/-! ## Contiguous grouping: MainWindow._group_pages (main_window.py 671-692) -/

/-- bytes(v[:4]).ljust(4, b"\x00"): normalize a staged value to 4 bytes. -/
def normPage (v : List Nat) : List Nat :=
  pad4 (v.take 4)

/-- sorted((int(p), bytes(v[:4]).ljust(4, b"\x00")) for p, v in pages.items()):
the staged dict is modelled as an association list with distinct keys;
sorting is by page index (Python's sorted and insertionSort are both stable,
so they agree on every input with distinct keys). -/
def sortPages (m : List (Nat × List Nat)) : List (Nat × List Nat) :=
  (m.map (fun pv => (pv.1, normPage pv.2))).insertionSort (fun a b => a.1 ≤ b.1)

/-- The run-building loop of _group_pages. -/
def groupGo (start : Nat) (buf : List Nat) (last : Nat) :
    List (Nat × List Nat) → List (Nat × List Nat)
  | [] => [(start, buf)]
  | (p, b4) :: rest =>
    if p = last + 1 then groupGo start (buf ++ b4) p rest
    else (start, buf) :: groupGo p b4 p rest

/-- _group_pages(pages): group a sparse page map into contiguous
(start_page, concatenated bytes) runs. -/
def group_pages (m : List (Nat × List Nat)) : List (Nat × List Nat) :=
  match sortPages m with
  | [] => []
  | (p0, b0) :: rest => groupGo p0 b0 p0 rest

/-- Expansion of one run back into its per-page entries: run (s, bytes)
stands for pages s, s+1, ... with consecutive 4-byte slices. -/
def expandRun (r : Nat × List Nat) : List (Nat × List Nat) :=
  (List.range (r.2.length / 4)).map (fun j => (r.1 + j, (r.2.drop (4 * j)).take 4))

example :
    group_pages [(5, [1, 2, 3, 4]), (6, [5, 6, 7, 8]), (8, [9, 10, 11, 12])]
    = [(5, [1, 2, 3, 4, 5, 6, 7, 8]), (8, [9, 10, 11, 12])] := by decide
example :
    group_pages [(8, [9, 10, 11, 12]), (5, [1, 2]), (6, [5, 6, 7, 8])]
    = [(5, [1, 2, 0, 0, 5, 6, 7, 8]), (8, [9, 10, 11, 12])] := by decide

/-! ## NDEF record decoder: decode_ndef_records (pcsc.py lines 165-228) -/

/-- Structured form of the human-readable strings appended by
decode_ndef_records: Text(...), URI(...), WellKnown(...), TNF=..., Raw(...). -/
inductive NdefOut where
  | textRec : String → List Nat → NdefOut      -- decoded text, language bytes
  | uriRec : String → NdefOut
  | wellKnown : List Nat → Nat → NdefOut        -- type bytes, payload length
  | otherRec : Nat → List Nat → Nat → NdefOut   -- tnf, type bytes, payload length
  | raw : Nat → NdefOut                          -- whole-message byte count
deriving Repr

/-- The URI-prefix abbreviation table of decode_ndef_records, verbatim. -/
def URI_PREFIXES : List String :=
  ["", "http://www.", "https://www.", "http://", "https://",
   "tel:", "mailto:", "ftp://anonymous:anonymous@", "ftp://ftp.",
   "ftps://", "sftp://", "smb://", "nfs://", "ftp://", "dav://",
   "news:", "telnet://", "imap:", "rtsp://", "urn:", "pop:",
   "sip:", "sips:", "tftp:", "btspp://", "btl2cap://", "btgoep://",
   "tcpobex://", "irdaobex://", "file://", "urn:epc:id:", "urn:epc:tag:",
   "urn:epc:pat:", "urn:epc:raw:", "urn:epc:", "urn:nfc:"]

/-- The Text branch: status byte gives language length (low 6 bits) and the
UTF-16 flag (bit 7); the language code is decoded with ascii/ignore and the
text with the given utf16 or utf8 decoder (errors="replace").  The decoders
are abstract parameters of the embedding. -/
def parseTextRec (utf8dec utf16dec : List Nat → String) : List Nat → NdefOut
  | [] => .raw 0  -- unreachable: the caller checks the payload is nonempty
  | status :: restp =>
    let lang_len := status &&& 0x3F
    let lang := asciiIgnore (restp.take lang_len)
    let text := (if status &&& 0x80 ≠ 0 then utf16dec else utf8dec) (restp.drop lang_len)
    .textRec text lang

/-- The URI branch: first payload byte selects a table entry (out-of-range
selects the empty prefix), the remaining bytes are UTF-8 decoded. -/
def parseUriRec (utf8dec : List Nat → String) : List Nat → NdefOut
  | [] => .raw 0  -- unreachable: the caller checks the payload is nonempty
  | code :: restp =>
    .uriRec ((if code < URI_PREFIXES.length then URI_PREFIXES.getD code "" else "")
      ++ utf8dec restp)

/-- Header parsing of one record iteration of decode_ndef_records: from
position i, read the header byte, the type length and the payload length
(1 byte in short-record form, 4 bytes big-endian otherwise).  Returns
(tnf, type_len, payload_len, index of the type field), or none when the
loop breaks because the buffer is exhausted. -/
def readRecHeader (ndef : List Nat) (i : Nat) : Option (Nat × Nat × Nat × Nat) :=
  if i < ndef.length then
    let hdr := ndef.getD i 0
    let sr := hdr &&& 0x10
    let tnf := hdr &&& 0x07
    if ndef.length ≤ i + 1 then none
    else
      let type_len := ndef.getD (i + 1) 0
      if sr ≠ 0 then
        if ndef.length ≤ i + 2 then none
        else some (tnf, type_len, ndef.getD (i + 2) 0, i + 3)
      else
        if ndef.length ≤ i + 5 then none
        else some (tnf, type_len,
          (ndef.getD (i + 2) 0) * 16777216 + (ndef.getD (i + 3) 0) * 65536
            + (ndef.getD (i + 4) 0) * 256 + ndef.getD (i + 5) 0, i + 6)
  else none

/-- The per-record dispatch of decode_ndef_records: well-known Text and URI
records are decoded, any other well-known type or TNF produces the
corresponding placeholder entry. -/
def decodeRec (utf8dec utf16dec : List Nat → String) (tnf : Nat)
    (type_field payload : List Nat) : NdefOut :=
  if tnf = 0x01 then
    if type_field = [0x54] ∧ payload ≠ [] then parseTextRec utf8dec utf16dec payload
    else if type_field = [0x55] ∧ payload ≠ [] then parseUriRec utf8dec payload
    else .wellKnown type_field payload.length
  else .otherRec tnf type_field payload.length

/-- The record loop of decode_ndef_records.  The position i strictly
increases each iteration, so a fuel of ndef.length makes it structural. -/
def decodeNdefGo (utf8dec utf16dec : List Nat → String) (ndef : List Nat) :
    Nat → Nat → List NdefOut
  | 0, _ => []
  | fuel + 1, i =>
    match readRecHeader ndef i with
    | none => []
    | some (tnf, type_len, payload_len, j) =>
      let type_field := (ndef.drop j).take type_len
      let payload := (ndef.drop (j + type_len)).take payload_len
      decodeRec utf8dec utf16dec tnf type_field payload ::
        decodeNdefGo utf8dec utf16dec ndef fuel (j + type_len + payload_len)

/-- decode_ndef_records(ndef): run the record loop; an empty result is
replaced by the Raw fallback carrying the message byte count. -/
def decode_ndef_records (utf8dec utf16dec : List Nat → String) (ndef : List Nat) :
    List NdefOut :=
  match decodeNdefGo utf8dec utf16dec ndef ndef.length 0 with
  | [] => [.raw ndef.length]
  | out => out

/-- bytes.decode of a pure-ASCII byte list (the shape of all inputs used by
the claims below). -/
def asciiStr (bs : List Nat) : String :=
  String.mk ((asciiIgnore bs).map Char.ofNat)

example :
    decode_ndef_records asciiStr (fun _ => "") [0xD1, 0x01, 0x08, 0x55, 0x01, 97, 98, 46, 100, 101, 47, 102]
    = [.uriRec "http://www.ab.de/f"] := rfl

/-! ## SKU base and catalog lookup: sku.py and main_window.py 698-712 -/

/-- sku_base(sku): the part of the SKU before the first '-', with every
character outside [A-Za-z0-9] removed. -/
def sku_base (sku : List Char) : List Char :=
  (sku.takeWhile (· ≠ '-')).filter (fun c => c.isAlpha ∨ c.isDigit)

/-- One record of the by-SKU catalog (filaments.py FilamentRecord, the
fields the lookup touches). -/
structure FilamentRecord where
  filament : List Char
  color : List Char
deriving DecidableEq, Repr

/-- MainWindow._find_ini_record_for_base(base).  The by-SKU catalog dict is
modelled as an association list in catalog order; cur_color is the stripped
text of the currently selected color combo entry, [] when no selection. -/
def find_ini_record_for_base (by_sku : List (List Char × FilamentRecord))
    (cur_color : List Char) (base : List Char) : Option (List Char × FilamentRecord) :=
  if base = [] then none
  else
    let candidates := by_sku.filter (fun kv => (base ++ ['-']).isPrefixOf kv.1)
    match candidates with
    | [] => none
    | c0 :: _ =>
      if cur_color ≠ [] then
        match candidates.find? (fun kv => pyStrip kv.2.color == cur_color) with
        | some kv => some kv
        | none => some c0
      else some c0

example : sku_base "AHHSCG-101".data = "AHHSCG".data := by decide
example : sku_base "AB_CD-9".data = "ABCD".data := by decide
example :
    find_ini_record_for_base
      [("AH-101".data, ⟨"PLA".data, "Red".data⟩), ("AH-202".data, ⟨"PLA".data, "Blue".data⟩)]
      [] (sku_base "AH-202".data)
    = some ("AH-101".data, ⟨"PLA".data, "Red".data⟩) := by decide
example :
    find_ini_record_for_base
      [("AH-101".data, ⟨"PLA".data, "Red".data⟩), ("AH-202".data, ⟨"PLA".data, "Blue".data⟩)]
      "Blue".data (sku_base "AH-202".data)
    = some ("AH-202".data, ⟨"PLA".data, "Blue".data⟩) := by decide

/-! ## Theorems -/

/-- C4: find_ndef_tlv on 03 04 (4 value bytes) FE returns value offset 2,
length 4 and total TLV length 6; on the single byte FE (immediate
terminator) it returns not-found; on the truncated extended-length buffer
03 FF with no following length bytes it returns not-found (and, being a
total function, no index error can occur). -/
theorem find_ndef_tlv_boundary :
    (∀ a b c d : Nat, find_ndef_tlv [0x03, 0x04, a, b, c, d, 0xFE] = .found 2 4 (some 6)) ∧
    find_ndef_tlv [0xFE] = .notFound ∧
    find_ndef_tlv [0x03, 0xFF] = .notFound :=
  ⟨fun _ _ _ _ => rfl, rfl, rfl⟩

/-- C3: read_single_page issues its 16-byte group read at the page index
floored to a multiple of 4, slices the requested page's 4 bytes at
intra-group byte offset (page % 4) * 4, and zero-pads the slice to exactly
4 bytes.  The transport is the abstract connection function; the response
to the group-read APDU fully determines the result. -/
theorem read_single_page_spec (conn : List Nat → TxResp) (page : Nat)
    (h : (conn (cmd_read_page_group (4 * (page / 4)))).sw1 = 0x90) :
    4 * (page / 4) % 4 = 0 ∧ 4 * (page / 4) ≤ page ∧ page < 4 * (page / 4) + 4 ∧
    read_single_page conn page =
      some (pad4 (((conn (cmd_read_page_group (4 * (page / 4)))).data.drop
        ((page % 4) * 4)).take 4)) ∧
    (pad4 (((conn (cmd_read_page_group (4 * (page / 4)))).data.drop
        ((page % 4) * 4)).take 4)).length = 4 := by
  have hbase : page - page % 4 = 4 * (page / 4) := by omega
  refine ⟨by omega, by omega, by omega, ?_, ?_⟩
  · show (let base := page - page % 4
          let r := conn (cmd_read_page_group base)
          if r.sw1 = 0x90 then
            let off := (page % 4) * 4
            let chunk := (r.data.drop off).take 4
            some (chunk ++ List.replicate (4 - chunk.length) 0)
          else none) = _
    simp only [hbase, pad4]
    rw [if_pos h]
  · have hle : (((conn (cmd_read_page_group (4 * (page / 4)))).data.drop
        ((page % 4) * 4)).take 4).length ≤ 4 := by
      simp [List.length_take]
    simp only [pad4, List.length_append, List.length_replicate]
    omega

/-- Transport stub used to instantiate the read_single_page theorem. -/
def groupReadConn : List Nat → TxResp :=
  fun _ => ⟨[0, 1, 2, 3, 4, 5, 6, 7, 8, 9, 10, 11, 12, 13, 14, 15], 0x90, 0⟩

theorem read_single_page_spec_witness :
    (groupReadConn (cmd_read_page_group (4 * (6 / 4)))).sw1 = 0x90 ∧
    read_single_page groupReadConn 6 = some [8, 9, 10, 11] := by
  have h : (groupReadConn (cmd_read_page_group (4 * (6 / 4)))).sw1 = 0x90 := rfl
  exact ⟨h, ((read_single_page_spec groupReadConn 6 h).2.2.2.1).trans (by decide)⟩

/-- Whenever the TLV scan loop reports a found NDEF TLV together with a
total TLV length, the declared value fits inside the buffer. -/
theorem findTlvGo_some_total_le (mem : List Nat) :
    ∀ fuel i off len t, findTlvGo mem fuel i = .found off len (some t) →
      off + len ≤ mem.length := by
  intro fuel
  induction fuel with
  | zero =>
    intro i off len t h
    simp [findTlvGo] at h
  | succ n ih =>
    intro i off len t h
    simp only [findTlvGo] at h
    split_ifs at h <;>
      first
        | exact ih _ _ _ _ h
        | (cases h <;> omega)

/-- One unfolding of the scan loop at an NDEF TLV in short-length form whose
declared value overruns the buffer. -/
theorem findTlvGo_short_overrun (mem : List Nat) (fuel i : Nat)
    (hi : i < mem.length) (ht : mem.getD i 0 = 0x03) (hl1 : i + 1 < mem.length)
    (hne : mem.getD (i + 1) 0 ≠ 0xFF)
    (hover : mem.length < i + 2 + mem.getD (i + 1) 0) :
    findTlvGo mem (fuel + 1) i = .found (i + 2) (mem.getD (i + 1) 0) none := by
  simp only [findTlvGo]
  rw [if_pos hi, if_neg (by rw [ht]; decide), if_neg (by rw [ht]; decide),
    if_neg (by omega), if_pos ht, if_pos hne, if_neg (by omega)]

/-- One unfolding of the scan loop at an NDEF TLV in extended-length form
whose declared value overruns the buffer. -/
theorem findTlvGo_ext_overrun (mem : List Nat) (fuel i : Nat)
    (hi : i < mem.length) (ht : mem.getD i 0 = 0x03) (_hl1 : i + 1 < mem.length)
    (hFF : mem.getD (i + 1) 0 = 0xFF) (hl3 : i + 3 < mem.length)
    (hover : mem.length < i + 4 + ((mem.getD (i + 2) 0) * 256 + mem.getD (i + 3) 0)) :
    findTlvGo mem (fuel + 1) i =
      .found (i + 4) ((mem.getD (i + 2) 0) * 256 + mem.getD (i + 3) 0) none := by
  simp only [findTlvGo]
  rw [if_pos hi, if_neg (by rw [ht]; decide), if_neg (by rw [ht]; decide),
    if_neg (by omega), if_pos ht, if_neg (by rw [hFF]; decide), if_neg (by omega),
    if_neg (by omega)]

/-- C10: when find_ndef_tlv locates an NDEF TLV whose length field is
readable but whose declared value runs past the end of the buffer, it
returns the value offset and declared length with the total component
absent, rather than not-found.  The first conjunct shows every found result
whose value overruns the buffer carries an absent total; the other two show
the overrun shapes (short and extended length) do produce such a partial
found result. -/
theorem find_ndef_tlv_partial :
    (∀ mem off len t, find_ndef_tlv mem = .found off len t →
      mem.length < off + len → t = none) ∧
    (∀ l rest, l ≠ 0xFF → rest.length < l →
      find_ndef_tlv (0x03 :: l :: rest) = .found 2 l none) ∧
    (∀ hi lo rest, rest.length < hi * 256 + lo →
      find_ndef_tlv (0x03 :: 0xFF :: hi :: lo :: rest) =
        .found 4 (hi * 256 + lo) none) := by
  refine ⟨?_, ?_, ?_⟩
  · intro mem off len t h hover
    match t with
    | none => rfl
    | some v =>
      exact absurd (findTlvGo_some_total_le mem _ _ _ _ _ h) (by omega)
  · intro l rest hne hlt
    have h := findTlvGo_short_overrun (0x03 :: l :: rest) (rest.length + 1) 0
      (by simp) (by simp) (by simp) (by simpa using hne) (by simp; omega)
    exact h
  · intro hi lo rest hlt
    have h := findTlvGo_ext_overrun (0x03 :: 0xFF :: hi :: lo :: rest) (rest.length + 3) 0
      (by simp) (by simp) (by simp) (by simp) (by simp)
      (by simp [List.getD_cons_succ]; omega)
    exact h

theorem find_ndef_tlv_partial_witness :
    ((3 : Nat) ≠ 0xFF ∧ ([9] : List Nat).length < 3 ∧
      find_ndef_tlv [0x03, 3, 9] = .found 2 3 none) ∧
    (([] : List Nat).length < 1 * 256 + 4 ∧
      find_ndef_tlv [0x03, 0xFF, 1, 4] = .found 4 (1 * 256 + 4) none) :=
  ⟨⟨by decide, by decide, find_ndef_tlv_partial.2.1 3 [9] (by decide) (by decide)⟩,
   ⟨by decide, find_ndef_tlv_partial.2.2 1 4 [] (by decide)⟩⟩

/-! ### Color round-trip (C2) -/

theorem hexDigitVal_lt {c : Char} {d : Nat} (h : hexDigitVal c = some d) : d < 16 := by
  unfold hexDigitVal at h
  split_ifs at h <;> (cases h; omega)

theorem hexDigitVal_isSome_lt {c : Char} (h : (hexDigitVal c).isSome) :
    ∃ d, hexDigitVal c = some d ∧ d < 16 := by
  obtain ⟨d, hd⟩ := Option.isSome_iff_exists.mp h
  exact ⟨d, hd, hexDigitVal_lt hd⟩

theorem hexDigit_not_space {c : Char} (h : (hexDigitVal c).isSome) :
    isPySpace c = false := by
  obtain ⟨d, hd, _⟩ := hexDigitVal_isSome_lt h
  unfold hexDigitVal at hd
  unfold isPySpace
  split_ifs at hd <;> (simp only [decide_eq_false_iff_not]; omega)

theorem hexDigit_ne_hash {c : Char} (h : (hexDigitVal c).isSome) : ¬(c = '#') := by
  intro he
  subst he
  exact absurd h (by decide)

/-- str.strip is the identity on strings without leading or trailing
whitespace. -/
theorem pyStrip_eq_self {l : List Char} (h : ∀ c ∈ l, isPySpace c = false) :
    pyStrip l = l := by
  have hdw : ∀ m : List Char, (∀ c ∈ m, isPySpace c = false) →
      m.dropWhile isPySpace = m := by
    intro m hm
    cases m with
    | nil => rfl
    | cons a t =>
      have ha := hm a (List.mem_cons_self a t)
      simp [List.dropWhile_cons, ha]
  unfold pyStrip
  rw [hdw l h, hdw l.reverse (fun c hc => h c (List.mem_reverse.mp hc)),
    List.reverse_reverse]

/-- Every digit position of the rendering table parses back to its index. -/
theorem hexVal_hexDigitChar : ∀ d, d < 16 → (hexDigitVal (hexDigitChar d)).getD 0 = d := by
  decide

theorem toHex2_split {h l : Nat} (hh : h < 16) (hl : l < 16) :
    toHex2 (16 * h + l) = [hexDigitChar h, hexDigitChar l] := by
  have h1 : (16 * h + l) / 16 % 16 = h := by omega
  have h2 : (16 * h + l) % 16 = l := by omega
  rw [toHex2, h1, h2]

/-- C2: encoding a valid color string of the form (hash)RRGGBB or
(hash)RRGGBBAA with write_color_rgba_hex to the tag byte order [A,B,G,R],
then decoding the 4 page bytes with _read_color_rgba_hex, yields a
9-character color string starting with the hash sign whose 6 RGB hex digits
denote the same value as the input's, and whose alpha digits are "FF"
whenever the input had no alpha digits. -/
theorem color_roundtrip (ds : List Char)
    (hhex : ∀ c ∈ ds, (hexDigitVal c).isSome)
    (hlen : ds.length = 6 ∨ ds.length = 8) :
    ∃ bs out, write_color_rgba_hex ('#' :: ds) = some bs ∧
      read_color_rgba_hex bs = some out ∧
      out.length = 9 ∧ out.headD ' ' = '#' ∧
      hexVal ((out.drop 1).take 6) = hexVal (ds.take 6) ∧
      (ds.length = 6 → out.drop 7 = ['F', 'F']) := by
  -- stripping is the identity on the hash-prefixed digit string
  have hstrip : pyStrip ('#' :: ds) = '#' :: ds := by
    apply pyStrip_eq_self
    intro c hc
    rcases List.mem_cons.mp hc with rfl | hc
    · decide
    · exact hexDigit_not_space (hhex c hc)
  have hls : lstripHash (pyStrip ('#' :: ds)) = ds := by
    rw [hstrip]
    cases ds with
    | nil => simp at hlen
    | cons c t =>
      have hc : ¬(c = '#') := hexDigit_ne_hash (hhex c (List.mem_cons_self c t))
      simp [lstripHash, hc]
  rcases hlen with h6 | h8
  · -- six digits: alpha defaults to FF
    match ds, h6, hhex, hls with
    | [c1, c2, c3, c4, c5, c6], _, hhex, hls =>
      obtain ⟨d1, e1, b1⟩ := hexDigitVal_isSome_lt (hhex c1 (by simp))
      obtain ⟨d2, e2, b2⟩ := hexDigitVal_isSome_lt (hhex c2 (by simp))
      obtain ⟨d3, e3, b3⟩ := hexDigitVal_isSome_lt (hhex c3 (by simp))
      obtain ⟨d4, e4, b4⟩ := hexDigitVal_isSome_lt (hhex c4 (by simp))
      obtain ⟨d5, e5, b5⟩ := hexDigitVal_isSome_lt (hhex c5 (by simp))
      obtain ⟨d6, e6, b6⟩ := hexDigitVal_isSome_lt (hhex c6 (by simp))
      have hw : write_color_rgba_hex ('#' :: [c1, c2, c3, c4, c5, c6]) =
          some [255, 16 * d5 + d6, 16 * d3 + d4, 16 * d1 + d2] := by
        unfold write_color_rgba_hex
        rw [hls]
        simp [parse4, hexByte, e1, e2, e3, e4, e5, e6,
          show hexDigitVal 'F' = some 15 from by decide]
      refine ⟨_, _, hw, rfl, ?_, ?_, ?_, ?_⟩
      · simp [toHex2]
      · simp [toHex2]
      · rw [show (255 : Nat) = 16 * 15 + 15 from rfl, toHex2_split b1 b2,
          toHex2_split b3 b4, toHex2_split b5 b6, toHex2_split (by omega) (by omega)]
        simp only [List.cons_append, List.nil_append, List.drop_succ_cons,
          List.drop_zero]
        simp [hexVal, hexValFrom, List.take, hexVal_hexDigitChar _ b1,
          hexVal_hexDigitChar _ b2, hexVal_hexDigitChar _ b3,
          hexVal_hexDigitChar _ b4, hexVal_hexDigitChar _ b5,
          hexVal_hexDigitChar _ b6, e1, e2, e3, e4, e5, e6]
      · intro
        rw [show (255 : Nat) = 16 * 15 + 15 from rfl, toHex2_split b1 b2,
          toHex2_split b3 b4, toHex2_split b5 b6, toHex2_split (by omega) (by omega)]
        simp only [List.cons_append, List.nil_append, List.drop_succ_cons,
          List.drop_zero]
        decide
  · -- eight digits: alpha carried through
    match ds, h8, hhex, hls with
    | [c1, c2, c3, c4, c5, c6, c7, c8], _, hhex, hls =>
      obtain ⟨d1, e1, b1⟩ := hexDigitVal_isSome_lt (hhex c1 (by simp))
      obtain ⟨d2, e2, b2⟩ := hexDigitVal_isSome_lt (hhex c2 (by simp))
      obtain ⟨d3, e3, b3⟩ := hexDigitVal_isSome_lt (hhex c3 (by simp))
      obtain ⟨d4, e4, b4⟩ := hexDigitVal_isSome_lt (hhex c4 (by simp))
      obtain ⟨d5, e5, b5⟩ := hexDigitVal_isSome_lt (hhex c5 (by simp))
      obtain ⟨d6, e6, b6⟩ := hexDigitVal_isSome_lt (hhex c6 (by simp))
      obtain ⟨d7, e7, b7⟩ := hexDigitVal_isSome_lt (hhex c7 (by simp))
      obtain ⟨d8, e8, b8⟩ := hexDigitVal_isSome_lt (hhex c8 (by simp))
      have hw : write_color_rgba_hex ('#' :: [c1, c2, c3, c4, c5, c6, c7, c8]) =
          some [16 * d7 + d8, 16 * d5 + d6, 16 * d3 + d4, 16 * d1 + d2] := by
        unfold write_color_rgba_hex
        rw [hls]
        simp [parse4, hexByte, e1, e2, e3, e4, e5, e6, e7, e8]
      refine ⟨_, _, hw, rfl, ?_, ?_, ?_, ?_⟩
      · simp [toHex2]
      · simp [toHex2]
      · rw [toHex2_split b1 b2, toHex2_split b3 b4, toHex2_split b5 b6,
          toHex2_split b7 b8]
        simp only [List.cons_append, List.nil_append, List.drop_succ_cons,
          List.drop_zero]
        simp [hexVal, hexValFrom, List.take, hexVal_hexDigitChar _ b1,
          hexVal_hexDigitChar _ b2, hexVal_hexDigitChar _ b3,
          hexVal_hexDigitChar _ b4, hexVal_hexDigitChar _ b5,
          hexVal_hexDigitChar _ b6, e1, e2, e3, e4, e5, e6]
      · intro hc
        simp at hc

theorem color_roundtrip_witness :
    (∀ c ∈ "800080".data, (hexDigitVal c).isSome) ∧
    ("800080".data.length = 6 ∨ "800080".data.length = 8) ∧
    ∃ bs out, write_color_rgba_hex ('#' :: "800080".data) = some bs ∧
      read_color_rgba_hex bs = some out ∧
      out.length = 9 ∧ out.headD ' ' = '#' ∧
      hexVal ((out.drop 1).take 6) = hexVal ("800080".data.take 6) ∧
      ("800080".data.length = 6 → out.drop 7 = ['F', 'F']) :=
  ⟨by decide, by decide, color_roundtrip "800080".data (by decide) (by decide)⟩

/-! ### Invalid color strings (C8) -/

/-- C8 counterexample: the 5-character string (hash)8000 matches neither the
(hash)RRGGBB form (7 characters) nor the (hash)RRGGBBAA form (9 characters),
yet to_rgba_bytes neither rejects it nor produces the documented fallback
00 00 00 FF: it zero-pads the digits and emits bytes 80 00 00 00 derived
from the malformed input. -/
theorem to_rgba_bytes_pads_short :
    "#8000".data.length ≠ 7 ∧ "#8000".data.length ≠ 9 ∧
    to_rgba_bytes "#8000".data = some [0x80, 0x00, 0x00, 0x00] ∧
    some [0x80, 0x00, 0x00, 0x00] ≠ some [0, 0, 0, 0xFF] ∧
    to_rgba_bytes "#8000".data ≠ none := by
  refine ⟨by decide, by decide, by decide, by decide, by decide⟩

/-- C8 amended: write_color_rgba_hex refuses the write whenever the cleaned
input (whitespace stripped, leading hashes dropped) does not have exactly
6 or 8 characters; to_rgba_bytes yields the fallback bytes 00 00 00 FF
exactly when the cleaned input is empty; normalize_hex_full yields the
fallback string (hash)000000FF for inputs not starting with the hash sign
and for hash-prefixed inputs of the wrong length (neither 7 characters nor
at least 9); but to_rgba_bytes pads malformed nonempty inputs with '0' to
8 digits and derives tag bytes from them instead of rejecting them. -/
theorem color_codec_invalid_spec :
    (∀ h : List Char, (lstripHash (pyStrip h)).length ≠ 6 →
      (lstripHash (pyStrip h)).length ≠ 8 → write_color_rgba_hex h = none) ∧
    (∀ h : List Char, lstripHash (pyStrip h) = [] →
      to_rgba_bytes h = some [0, 0, 0, 0xFF]) ∧
    (∀ h : List Char, (pyStrip h).head? ≠ some '#' →
      normalize_hex_full h = "#000000FF".data) ∧
    (∀ h : List Char, (pyStrip h).head? = some '#' → (pyStrip h).length ≠ 7 →
      (pyStrip h).length ≤ 8 → normalize_hex_full h = "#000000FF".data) := by
  refine ⟨?_, ?_, ?_, ?_⟩
  · intro h h6 h8
    unfold write_color_rgba_hex
    rw [if_neg (by tauto)]
  · intro h he
    unfold to_rgba_bytes
    rw [he]
    rfl
  · intro h hh
    unfold normalize_hex_full
    rw [if_pos hh]
  · intro h hh h7 h8
    unfold normalize_hex_full
    rw [if_neg (by simp [hh]), if_neg (by simpa using h7), if_neg (by simp; omega)]

theorem color_codec_invalid_spec_witness :
    ((lstripHash (pyStrip "#12345".data)).length ≠ 6 ∧
      (lstripHash (pyStrip "#12345".data)).length ≠ 8 ∧
      write_color_rgba_hex "#12345".data = none) ∧
    (lstripHash (pyStrip "###".data) = [] ∧
      to_rgba_bytes "###".data = some [0, 0, 0, 0xFF]) ∧
    ((pyStrip "800080".data).head? ≠ some '#' ∧
      normalize_hex_full "800080".data = "#000000FF".data) ∧
    ((pyStrip "#8000".data).head? = some '#' ∧ (pyStrip "#8000".data).length ≠ 7 ∧
      (pyStrip "#8000".data).length ≤ 8 ∧
      normalize_hex_full "#8000".data = "#000000FF".data) :=
  ⟨⟨by decide, by decide, color_codec_invalid_spec.1 _ (by decide) (by decide)⟩,
   ⟨by decide, color_codec_invalid_spec.2.1 _ (by decide)⟩,
   ⟨by decide, color_codec_invalid_spec.2.2.1 _ (by decide)⟩,
   ⟨by decide, by decide, by decide,
    color_codec_invalid_spec.2.2.2 _ (by decide) (by decide) (by decide)⟩⟩

/-! ### URI abbreviation table and URI record decoding (C9) -/

/-- C9 counterexample: the URI-prefix abbreviation table of
decode_ndef_records has 36 entries (indices 0x00 to 0x23 of the NFC Forum
URI RTD table), not 35 as the specification claims. -/
theorem uri_prefix_table_has_36_entries :
    URI_PREFIXES.length = 36 ∧ URI_PREFIXES.length ≠ 35 := by
  refine ⟨rfl, by decide⟩

/-- Header parsing fails once the position has passed the end. -/
theorem readRecHeader_past_end (ndef : List Nat) (i : Nat) (h : ndef.length ≤ i) :
    readRecHeader ndef i = none := by
  unfold readRecHeader
  rw [if_neg (by omega)]

/-- The record loop returns nothing once the position has passed the end of
the message. -/
theorem decodeNdefGo_past_end (utf8dec utf16dec : List Nat → String)
    (ndef : List Nat) (fuel i : Nat) (h : ndef.length ≤ i) :
    decodeNdefGo utf8dec utf16dec ndef fuel i = [] := by
  cases fuel with
  | zero => rfl
  | succ n =>
    simp only [decodeNdefGo]
    rw [readRecHeader_past_end ndef i h]

/-- C9 amended: the URI abbreviation table is a fixed 36-entry table whose
index 0 is the empty prefix and whose index 1 is http://www., and a
well-formed single short-record URI message decodes to the table entry
selected by the first payload byte concatenated with the UTF-8 decoding of
the remaining payload bytes (the UTF-8 decoder being a parameter of the
embedding). -/
theorem uri_decode_spec :
    URI_PREFIXES.length = 36 ∧
    URI_PREFIXES[0]? = some "" ∧
    URI_PREFIXES[1]? = some "http://www." ∧
    (∀ (utf8dec utf16dec : List Nat → String) (code : Nat) (rest : List Nat),
      code < 36 → rest.length + 1 ≤ 255 →
      decode_ndef_records utf8dec utf16dec
        (0xD1 :: 0x01 :: (rest.length + 1) :: 0x55 :: code :: rest)
      = [.uriRec (URI_PREFIXES.getD code "" ++ utf8dec rest)]) := by
  refine ⟨rfl, rfl, rfl, ?_⟩
  intro utf8dec utf16dec code rest hcode _hsz
  have hhdr : readRecHeader (0xD1 :: 0x01 :: (rest.length + 1) :: 0x55 :: code :: rest) 0
      = some (1, 1, rest.length + 1, 3) := by
    unfold readRecHeader
    rw [if_pos (by simp)]
    simp only [List.getD_cons_zero, List.getD_cons_succ, List.length_cons]
    rw [if_neg (by omega), if_pos (by decide), if_neg (by omega)]
    simp
    decide
  have hgo : decodeNdefGo utf8dec utf16dec
      (0xD1 :: 0x01 :: (rest.length + 1) :: 0x55 :: code :: rest)
      ((rest.length + 4) + 1) 0
      = [.uriRec (URI_PREFIXES.getD code "" ++ utf8dec rest)] := by
    rw [decodeNdefGo, hhdr]
    simp only [decodeRec, List.drop_succ_cons, List.drop_zero, List.take_succ_cons,
      List.take_zero, List.take_length]
    rw [decodeNdefGo_past_end _ _ _ _ _ (by simp; omega)]
    have h36 : URI_PREFIXES.length = 36 := rfl
    simp [parseUriRec, h36, hcode]
  have hfuel : (0xD1 :: 0x01 :: (rest.length + 1) :: 0x55 :: code :: rest).length
      = (rest.length + 4) + 1 := by simp
  unfold decode_ndef_records
  rw [hfuel, hgo]

theorem uri_decode_spec_witness :
    (1 : Nat) < 36 ∧ ([0x61] : List Nat).length + 1 ≤ 255 ∧
    decode_ndef_records asciiStr (fun _ => "")
      (0xD1 :: 0x01 :: (([0x61] : List Nat).length + 1) :: 0x55 :: 1 :: [0x61])
    = [.uriRec (URI_PREFIXES.getD 1 "" ++ asciiStr [0x61])] :=
  ⟨by decide, by decide, uri_decode_spec.2.2.2 asciiStr (fun _ => "") 1 [0x61]
    (by decide) (by decide)⟩

/-! ### Catalog lookup by SKU base (C7) -/

theorem find?_filter_eq {α : Type} (l : List α) (p q : α → Bool) :
    (l.filter p).find? q = l.find? (fun a => p a && q a) := by
  induction l with
  | nil => rfl
  | cons a t ih =>
    by_cases hp : p a
    · by_cases hq : q a
      · simp [List.filter_cons, hp, List.find?_cons, hq]
      · simp [List.filter_cons, hp, List.find?_cons, hq, ih]
    · simp [List.filter_cons, hp, List.find?_cons, ih]

theorem head?_filter_eq {α : Type} (l : List α) (p : α → Bool) :
    (l.filter p).head? = l.find? p := by
  induction l with
  | nil => rfl
  | cons a t ih =>
    by_cases hp : p a
    · simp [List.filter_cons, hp, List.find?_cons]
    · simp [List.filter_cons, hp, List.find?_cons, ih]

/-- C7 counterexample: the catalog lookup driven by _select_by_sku has no
exact full-SKU preference.  With catalog entries AH-101 (Red) and AH-202
(Blue) in that order, no selected color, and the read full SKU AH-202,
the lookup returns AH-101 although the exact entry AH-202 is present. -/
theorem no_exact_sku_preference :
    find_ini_record_for_base
        [("AH-101".data, ⟨"PLA".data, "Red".data⟩),
         ("AH-202".data, ⟨"PLA".data, "Blue".data⟩)]
        [] (sku_base "AH-202".data)
      = some ("AH-101".data, ⟨"PLA".data, "Red".data⟩) ∧
    ("AH-202".data, (⟨"PLA".data, "Blue".data⟩ : FilamentRecord)) ∈
        [("AH-101".data, (⟨"PLA".data, "Red".data⟩ : FilamentRecord)),
         ("AH-202".data, ⟨"PLA".data, "Blue".data⟩)] ∧
    ¬("AH-101".data = "AH-202".data) := by
  refine ⟨by decide, by decide, by decide⟩

/-- C7 amended: the catalog lookup uses only the SKU base, never the full
SKU: among entries whose SKU starts with base followed by the dash, it
returns the first (in catalog order) whose stripped color name equals the
currently selected color when one is selected and any color match exists,
and otherwise the first candidate in catalog order; the empty base and a
candidate-free catalog yield no result. -/
theorem find_ini_record_spec (cat : List (List Char × FilamentRecord))
    (cur base : List Char) :
    find_ini_record_for_base cat cur base =
      if base = [] then none
      else if cur = [] then
        cat.find? (fun kv => (base ++ ['-']).isPrefixOf kv.1)
      else
        (cat.find? (fun kv =>
            (base ++ ['-']).isPrefixOf kv.1 && (pyStrip kv.2.color == cur))).orElse
          (fun _ => cat.find? (fun kv => (base ++ ['-']).isPrefixOf kv.1)) := by
  unfold find_ini_record_for_base
  by_cases hb : base = []
  · simp [hb]
  · rw [if_neg hb, if_neg hb]
    simp only [find?_filter_eq]
    by_cases hcur : cur = []
    · subst hcur
      cases hfil : cat.filter (fun kv => (base ++ ['-']).isPrefixOf kv.1) with
      | nil =>
        rw [if_pos rfl, show List.find? (fun kv => (base ++ ['-']).isPrefixOf kv.1) cat
          = (cat.filter (fun kv => (base ++ ['-']).isPrefixOf kv.1)).head? from
          (head?_filter_eq _ _).symm, hfil]
        rfl
      | cons c0 cs =>
        rw [if_pos rfl, show List.find? (fun kv => (base ++ ['-']).isPrefixOf kv.1) cat
          = (cat.filter (fun kv => (base ++ ['-']).isPrefixOf kv.1)).head? from
          (head?_filter_eq _ _).symm, hfil]
        simp
    · rw [if_neg hcur]
      cases hf : cat.find? (fun kv =>
          (base ++ ['-']).isPrefixOf kv.1 && (pyStrip kv.2.color == cur)) with
      | some kv =>
        have hmem := List.mem_of_find?_eq_some hf
        have hpred := List.find?_some hf
        have hkvfil : kv ∈ cat.filter (fun kv => (base ++ ['-']).isPrefixOf kv.1) :=
          List.mem_filter.mpr ⟨hmem, by
            have h1 := hpred
            simp only [Bool.and_eq_true] at h1
            exact h1.1⟩
        cases hfil : cat.filter (fun kv => (base ++ ['-']).isPrefixOf kv.1) with
        | nil =>
          rw [hfil] at hkvfil
          simp at hkvfil
        | cons c0 cs =>
          simp [hcur, Option.orElse]
      | none =>
        cases hfil : cat.filter (fun kv => (base ++ ['-']).isPrefixOf kv.1) with
        | nil =>
          rw [show List.find? (fun kv => (base ++ ['-']).isPrefixOf kv.1) cat
            = (cat.filter (fun kv => (base ++ ['-']).isPrefixOf kv.1)).head? from
            (head?_filter_eq _ _).symm, hfil]
          simp [Option.orElse]
        | cons c0 cs =>
          rw [show List.find? (fun kv => (base ++ ['-']).isPrefixOf kv.1) cat
            = (cat.filter (fun kv => (base ++ ['-']).isPrefixOf kv.1)).head? from
            (head?_filter_eq _ _).symm, hfil]
          simp [hcur, Option.orElse]

/-! ### User-area protection (C5) -/

/-- Every transport write issued by the write_raw_pages loop targets a page
inside the user area [user_start, user_end). -/
theorem wrpGo_log_in_user_area (wr : WriteTx) (start buf skip) :
    ∀ is : List Nat, ∀ w ∈ (wrpGo wr start buf skip is).2,
      detect_user_area.user_start ≤ w.1 ∧ w.1 < detect_user_area.user_end := by
  intro is
  induction is with
  | nil => intro w hw; simp [wrpGo] at hw
  | cons i rest ih =>
    intro w hw
    simp only [wrpGo] at hw
    split_ifs at hw with h1 h2 <;> dsimp only at hw <;>
      first
        | exact ih w hw
        | (rcases List.mem_cons.mp hw with rfl | hw2
           · exact h1
           · exact ih w hw2)

/-- A page of the requested span that is outside the user area is recorded
as false by the write_raw_pages loop. -/
theorem wrpGo_lookup_false (wr : WriteTx) (start buf skip) :
    ∀ is : List Nat, ∀ j ∈ is,
      ¬(detect_user_area.user_start ≤ start + j ∧
        start + j < detect_user_area.user_end) →
      List.lookup (start + j) (wrpGo wr start buf skip is).1 = some false := by
  intro is
  induction is with
  | nil => intro j hj; simp at hj
  | cons i rest ih =>
    intro j hj hout
    by_cases hij : i = j
    · subst hij
      simp only [wrpGo]
      rw [if_pos hout]
      simp [List.lookup]
    · have hjr : j ∈ rest := by
        rcases List.mem_cons.mp hj with h | h
        · exact absurd h.symm hij
        · exact h
      have hne : ((start + j : Nat) == start + i) = false := by
        rw [beq_eq_false_iff_ne]
        omega
      simp only [wrpGo]
      split_ifs with h1 h2 <;>
        (simp only [List.lookup, hne]; exact ih j hjr hout)

/-- Every transport write issued by the clear_user_area loop targets one of
the listed pages. -/
theorem cuaGo_log_mem (wr : WriteTx) :
    ∀ ps : List Nat, ∀ w ∈ (cuaGo wr ps).2, w.1 ∈ ps := by
  intro ps
  induction ps with
  | nil => intro w hw; simp [cuaGo] at hw
  | cons p rest ih =>
    intro w hw
    simp only [cuaGo] at hw
    rcases List.mem_cons.mp hw with rfl | hw
    · exact List.mem_cons_self p rest
    · exact List.mem_cons_of_mem p (ih w hw)

/-- C5: no page of the hard-coded protected set (0x00-0x03 and 0x2A-0x2D)
is ever the target of a transport write issued by write_raw_pages or by
clear_user_area, and when such a page lies inside the chunked span of a
write_raw_pages request, its entry in the result map is false. -/
theorem protected_pages_never_written (wr : WriteTx) (start : Nat)
    (data : List Nat) (skip : Bool) (p : Nat)
    (hp : p ∈ detect_user_area.protectedPages) :
    (∀ w ∈ (write_raw_pages wr start data skip).2, w.1 ≠ p) ∧
    (∀ w ∈ (clear_user_area wr).2, w.1 ≠ p) ∧
    (start ≤ p → p < start + (data.length + 3) / 4 → data.length ≠ 0 →
      List.lookup p (write_raw_pages wr start data skip).1 = some false) := by
  have hout : p < 0x04 ∨ 0x29 ≤ p := by
    simp only [detect_user_area, List.mem_cons, List.not_mem_nil, or_false] at hp
    omega
  refine ⟨?_, ?_, ?_⟩
  · intro w hw
    unfold write_raw_pages at hw
    split_ifs at hw with hd
    · simp at hw
    · have hb := wrpGo_log_in_user_area wr start data skip _ w hw
      simp only [detect_user_area] at hb
      omega
  · intro w hw
    have hb := cuaGo_log_mem wr _ w hw
    unfold clear_user_area at hb
    rw [List.mem_range'] at hb
    simp only [detect_user_area] at hb ⊢
    omega
  · intro h1 h2 h3
    unfold write_raw_pages
    rw [if_neg h3]
    have hj : p = start + (p - start) := by omega
    rw [hj]
    apply wrpGo_lookup_false
    · rw [List.mem_range]
      omega
    · simp only [detect_user_area]
      omega

theorem protected_pages_never_written_witness :
    ((0x2A : Nat) ∈ detect_user_area.protectedPages) ∧
    ((0x29 : Nat) ≤ 0x2A ∧
      (0x2A : Nat) < 0x29 + (([1, 2, 3, 4, 5] : List Nat).length + 3) / 4 ∧
      ([1, 2, 3, 4, 5] : List Nat).length ≠ 0) ∧
    List.lookup 0x2A (write_raw_pages (fun _ _ => true) 0x29 [1, 2, 3, 4, 5] true).1
      = some false :=
  ⟨by decide, ⟨by decide, by decide, by decide⟩,
   (protected_pages_never_written (fun _ _ => true) 0x29 [1, 2, 3, 4, 5] true 0x2A
      (by decide)).2.2 (by decide) (by decide) (by decide)⟩

/-! ### Contiguous grouping (C6) -/

theorem normPage_length (v : List Nat) : (normPage v).length = 4 := by
  unfold normPage pad4
  simp [List.length_take]

theorem normPage_of_length4 {v : List Nat} (h : v.length = 4) : normPage v = v := by
  unfold normPage pad4
  rw [List.take_of_length_le (by omega)]
  simp [h]

theorem expandRun_single (p : Nat) (b : List Nat) (h : b.length = 4) :
    expandRun (p, b) = [(p, b)] := by
  unfold expandRun
  have h1 : (p, b).2.length / 4 = 1 := by simp [h]
  rw [h1, show List.range 1 = [0] from rfl]
  simp [List.take_of_length_le (by omega : b.length ≤ 4)]

theorem expandRun_append_page (start : Nat) (buf b4 : List Nat)
    (hm : buf.length % 4 = 0) (h4 : b4.length = 4) :
    expandRun (start, buf ++ b4)
      = expandRun (start, buf) ++ [(start + buf.length / 4, b4)] := by
  unfold expandRun
  have hlen : (buf ++ b4).length / 4 = buf.length / 4 + 1 := by
    rw [List.length_append, h4]
    omega
  rw [show (start, buf ++ b4).2 = buf ++ b4 from rfl, hlen, List.range_succ,
    List.map_append]
  congr 1
  · apply List.map_congr_left
    intro j hj
    rw [List.mem_range] at hj
    have hj4 : 4 * j + 4 ≤ buf.length := by omega
    have hdl : (buf ++ b4).drop (4 * j) = buf.drop (4 * j) ++ b4 :=
      List.drop_append_of_le_length (by omega)
    have htl : (buf.drop (4 * j) ++ b4).take 4 = (buf.drop (4 * j)).take 4 :=
      List.take_append_of_le_length (by simp [List.length_drop]; omega)
    simp only [hdl, htl]
  · simp only [List.map_cons, List.map_nil]
    have hdl : (buf ++ b4).drop (4 * (buf.length / 4)) = b4 := by
      rw [show 4 * (buf.length / 4) = buf.length from by omega]
      simp
    rw [hdl, List.take_of_length_le (by omega)]

/-- Invariant of the run-building loop: the produced runs expand back to
exactly the pending (current run followed by remaining sorted items), the
runs are separated by gaps, every run is a nonempty whole number of pages,
and the first produced run starts at the current start page. -/
theorem groupGo_spec :
    ∀ (rest : List (Nat × List Nat)) (start : Nat) (buf : List Nat) (last : Nat),
      0 < buf.length → buf.length % 4 = 0 →
      last + 1 = start + buf.length / 4 →
      List.Chain (fun a b => a < b) last (rest.map Prod.fst) →
      (∀ r ∈ rest, r.2.length = 4) →
      (groupGo start buf last rest).flatMap expandRun = expandRun (start, buf) ++ rest ∧
      List.Chain' (fun r1 r2 => r1.1 + r1.2.length / 4 < r2.1)
        (groupGo start buf last rest) ∧
      (∀ r ∈ groupGo start buf last rest, r.2.length % 4 = 0 ∧ 0 < r.2.length) ∧
      (groupGo start buf last rest).head?.map Prod.fst = some start := by
  intro rest
  induction rest with
  | nil =>
    intro start buf last hpos hmod _hlast _hchain _hvals
    refine ⟨by simp [groupGo], by simp [groupGo], ?_, by simp [groupGo]⟩
    intro r hr
    simp only [groupGo, List.mem_singleton] at hr
    subst hr
    exact ⟨hmod, hpos⟩
  | cons pb rest ih =>
    obtain ⟨p, b4⟩ := pb
    intro start buf last hpos hmod hlast hchain hvals
    rw [List.map_cons, List.chain_cons] at hchain
    obtain ⟨hlp, hchain2⟩ := hchain
    have hb4 : b4.length = 4 := hvals (p, b4) (List.mem_cons_self _ _)
    have hvals2 : ∀ r ∈ rest, r.2.length = 4 :=
      fun r hr => hvals r (List.mem_cons_of_mem _ hr)
    by_cases hpe : p = last + 1
    · -- consecutive page: extend the current run
      have hrec := ih start (buf ++ b4) p
        (by simp [List.length_append]; omega)
        (by rw [List.length_append, hb4]; omega)
        (by rw [List.length_append, hb4]; omega)
        hchain2 hvals2
      have hgo : groupGo start buf last ((p, b4) :: rest)
          = groupGo start (buf ++ b4) p rest := by
        simp only [groupGo, if_pos hpe]
      rw [hgo]
      refine ⟨?_, hrec.2.1, hrec.2.2.1, hrec.2.2.2⟩
      rw [hrec.1, expandRun_append_page start buf b4 hmod hb4,
        show start + buf.length / 4 = p from by omega, List.append_assoc,
        List.singleton_append]
    · -- gap: close the current run and start a new one
      have hrec := ih p b4 p
        (by omega)
        (by rw [hb4])
        (by rw [hb4])
        hchain2 hvals2
      have hgo : groupGo start buf last ((p, b4) :: rest)
          = (start, buf) :: groupGo p b4 p rest := by
        simp only [groupGo, if_neg hpe]
      rw [hgo]
      refine ⟨?_, ?_, ?_, by simp⟩
      · rw [List.flatMap_cons, hrec.1, expandRun_single p b4 hb4,
          List.singleton_append]
      · rw [List.chain'_cons']
        refine ⟨?_, hrec.2.1⟩
        intro y hy
        have hhd := hrec.2.2.2
        have hy1 : y.1 = p := by
          cases hh : (groupGo p b4 p rest).head? with
          | none => rw [hh] at hy; simp at hy
          | some z =>
            rw [hh] at hy hhd
            simp at hy hhd
            subst hy
            exact hhd
        have hlp2 : last < p := hlp
        show start + buf.length / 4 < y.1
        rw [hy1]
        omega
      · intro r hr
        rcases List.mem_cons.mp hr with rfl | hr2
        · exact ⟨hmod, hpos⟩
        · exact hrec.2.2.1 r hr2

/-- C6: for every staged page map with distinct page indices, _group_pages
returns runs that expand back exactly to the sorted, 4-byte-normalized
entries (so each run's pages are strictly sequential with no gaps and the
runs appear in ascending start-page order), adjacent runs are separated by
at least one missing page, every run is a nonempty whole number of pages,
and in particular the map with pages 5, 6, 8 groups into exactly
[(5, b0 ++ b1), (8, b2)]. -/
theorem group_pages_spec (m : List (Nat × List Nat))
    (hnd : (m.map Prod.fst).Nodup) :
    (group_pages m).flatMap expandRun = sortPages m ∧
    List.Chain' (fun r1 r2 => r1.1 + r1.2.length / 4 < r2.1) (group_pages m) ∧
    (∀ r ∈ group_pages m, r.2.length % 4 = 0 ∧ 0 < r.2.length) ∧
    (∀ b0 b1 b2 : List Nat, b0.length = 4 → b1.length = 4 → b2.length = 4 →
      group_pages [(5, b0), (6, b1), (8, b2)] = [(5, b0 ++ b1), (8, b2)]) := by
  haveI hTot : IsTotal (Nat × List Nat) (fun a b => a.1 ≤ b.1) :=
    ⟨fun a b => Nat.le_total a.1 b.1⟩
  haveI hTrans : IsTrans (Nat × List Nat) (fun a b => a.1 ≤ b.1) :=
    ⟨fun _ _ _ hab hbc => Nat.le_trans hab hbc⟩
  have hconc : ∀ b0 b1 b2 : List Nat, b0.length = 4 → b1.length = 4 →
      b2.length = 4 →
      group_pages [(5, b0), (6, b1), (8, b2)] = [(5, b0 ++ b1), (8, b2)] := by
    intro b0 b1 b2 h0 h1 h2
    have hmap : [(5, b0), (6, b1), (8, b2)].map (fun pv => (pv.1, normPage pv.2))
        = [(5, b0), (6, b1), (8, b2)] := by
      simp [normPage_of_length4 h0, normPage_of_length4 h1, normPage_of_length4 h2]
    have hs : sortPages [(5, b0), (6, b1), (8, b2)] = [(5, b0), (6, b1), (8, b2)] := by
      unfold sortPages
      rw [hmap]
      apply List.Sorted.insertionSort_eq
      simp [List.sorted_cons]
    simp only [group_pages, hs]
    simp [groupGo]
  have hperm := List.perm_insertionSort (fun a b : Nat × List Nat => a.1 ≤ b.1)
    (m.map (fun pv => (pv.1, normPage pv.2)))
  have hsorted : List.Sorted (fun a b : Nat × List Nat => a.1 ≤ b.1) (sortPages m) :=
    List.sorted_insertionSort _ _
  have hknd : ((sortPages m).map Prod.fst).Nodup := by
    have hmp : List.Perm ((sortPages m).map Prod.fst) (m.map Prod.fst) := by
      have h1 := hperm.map Prod.fst
      rw [List.map_map] at h1
      exact h1
    exact hmp.nodup_iff.mpr hnd
  have hplt : List.Pairwise (fun a b : Nat × List Nat => a.1 < b.1) (sortPages m) := by
    have hpne : List.Pairwise (fun a b : Nat × List Nat => a.1 ≠ b.1) (sortPages m) :=
      List.pairwise_map.mp hknd
    exact (hsorted.and hpne).imp fun h => Nat.lt_of_le_of_ne h.1 h.2
  have hval : ∀ r ∈ sortPages m, r.2.length = 4 := by
    intro r hr
    have hr2 := hperm.mem_iff.mp hr
    simp only [List.mem_map] at hr2
    obtain ⟨pv, _, rfl⟩ := hr2
    exact normPage_length _
  cases hsm : sortPages m with
  | nil =>
    refine ⟨?_, ?_, ?_, hconc⟩ <;> simp [group_pages, hsm]
  | cons c0 rest =>
    obtain ⟨p0, b0⟩ := c0
    rw [hsm] at hplt hval
    have hb0 : b0.length = 4 := hval (p0, b0) (List.mem_cons_self _ _)
    have hchain : List.Chain (fun a b => a < b) p0 (rest.map Prod.fst) := by
      have hmlt : List.Pairwise (fun a b : Nat => a < b)
          (((p0, b0) :: rest).map Prod.fst) := List.pairwise_map.mpr hplt
      rw [List.map_cons] at hmlt
      exact List.chain_iff_pairwise.mpr hmlt
    have hrec := groupGo_spec rest p0 b0 p0
      (by omega) (by rw [hb0]) (by rw [hb0]) hchain
      (fun r hr => hval r (List.mem_cons_of_mem _ hr))
    have hgp : group_pages m = groupGo p0 b0 p0 rest := by
      simp only [group_pages, hsm]
    rw [hgp]
    refine ⟨?_, hrec.2.1, hrec.2.2.1, hconc⟩
    rw [hrec.1, expandRun_single p0 b0 hb0, List.singleton_append]

theorem group_pages_spec_witness :
    (([(5, [1, 2, 3, 4]), (6, [5, 6, 7, 8]), (8, [9, 10, 11, 12])] :
        List (Nat × List Nat)).map Prod.fst).Nodup ∧
    (group_pages [(5, [1, 2, 3, 4]), (6, [5, 6, 7, 8]), (8, [9, 10, 11, 12])]).flatMap
        expandRun
      = sortPages [(5, [1, 2, 3, 4]), (6, [5, 6, 7, 8]), (8, [9, 10, 11, 12])] ∧
    group_pages [(5, [1, 2, 3, 4]), (6, [5, 6, 7, 8]), (8, [9, 10, 11, 12])]
      = [(5, [1, 2, 3, 4] ++ [5, 6, 7, 8]), (8, [9, 10, 11, 12])] :=
  ⟨by decide,
   (group_pages_spec _ (by decide)).1,
   (group_pages_spec [] (by decide)).2.2.2 [1, 2, 3, 4] [5, 6, 7, 8] [9, 10, 11, 12]
     rfl rfl rfl⟩

/-! ### Zero-terminated ASCII round-trip (C1) -/

theorem takeWhile_append_all {x : Type} (p : x → Bool) (l1 l2 : List x)
    (h : ∀ b ∈ l1, p b = true) :
    (l1 ++ l2).takeWhile p = l1 ++ l2.takeWhile p := by
  induction l1 with
  | nil => simp
  | cons a t ih =>
    rw [List.cons_append, List.takeWhile_cons, h a (List.mem_cons_self a t),
      ih fun b hb => h b (List.mem_cons_of_mem a hb)]
    simp

theorem takeWhile_nz_append (l1 l2 : List Nat) (h : ∀ b ∈ l1, b ≠ 0) :
    (l1 ++ l2).takeWhile (· ≠ 0) = l1 ++ l2.takeWhile (· ≠ 0) :=
  takeWhile_append_all _ l1 l2 (fun b hb => by simpa using h b hb)

/-- C1 counterexample: the one-character string consisting of the ASCII NUL
character has length 1, at most the 32-byte span budget, yet encoding it
with the write_ascii_z rule and decoding with the _read_ascii_z rule yields
the empty string: the zero-terminated format cannot represent NUL. -/
theorem ascii_roundtrip_nul_fails :
    ([0] : List Nat).length ≤ 32 ∧ (∀ b ∈ ([0] : List Nat), b < 128) ∧
    read_ascii_z (write_ascii_z [0] 32) 32 = [] ∧ ([] : List Nat) ≠ [0] := by
  refine ⟨by decide, by decide, by decide, by decide⟩

/-- Invariant of the _read_ascii_z page loop over the pages produced for
the byte string s, with the already accumulated (zero-free, page-aligned)
prefix acc: the loop returns acc followed by s up to the terminator. -/
theorem readAsciiLoop_inv :
    ∀ (n : Nat) (s acc : List Nat),
      s.length ≤ n →
      (∀ b ∈ s, b ≠ 0) →
      (∀ b ∈ acc, b ≠ 0) →
      acc.length % 4 = 0 →
      acc.length + s.length ≤ 32 →
      (readAsciiLoop 32 (chunk4 (s ++ [0])) acc).takeWhile (· ≠ 0) = acc ++ s := by
  intro n
  induction n with
  | zero =>
    intro s acc hn hs hacc hmod hsum
    have hs0 : s = [] := List.length_eq_zero.mp (by omega)
    subst hs0
    by_cases h32 : 32 ≤ acc.length
    · rw [show chunk4 ([] ++ [0]) = [[0, 0, 0, 0]] from rfl]
      rw [readAsciiLoop, if_pos h32]
      simpa using takeWhile_nz_append acc [] hacc
    · rw [show chunk4 ([] ++ [0]) = [[0, 0, 0, 0]] from rfl]
      rw [readAsciiLoop, if_neg h32, if_pos (by decide)]
      rw [takeWhile_nz_append acc [0, 0, 0, 0] hacc]
      simp
  | succ n ih =>
    intro s acc hn hs hacc hmod hsum
    match s, hs with
    | [], _ =>
      exact ih [] acc (by simp) (by simp) hacc hmod (by simpa using hsum)
    | [x1], hs =>
      have hlt : ¬(32 ≤ acc.length) := by simp at hsum; omega
      rw [show ([x1] ++ [0] : List Nat) = [x1, 0] from rfl,
        show chunk4 [x1, 0] = [pad4 [x1, 0]] from rfl,
        show pad4 [x1, 0] = [x1, 0, 0, 0] from rfl]
      rw [readAsciiLoop, if_neg hlt, if_pos (by simp)]
      rw [takeWhile_nz_append acc [x1, 0, 0, 0] hacc]
      have hx1 : x1 ≠ 0 := hs x1 (by simp)
      simp [List.takeWhile_cons, hx1]
    | [x1, x2], hs =>
      have hlt : ¬(32 ≤ acc.length) := by simp at hsum; omega
      rw [show ([x1, x2] ++ [0] : List Nat) = [x1, x2, 0] from rfl,
        show chunk4 [x1, x2, 0] = [pad4 [x1, x2, 0]] from rfl,
        show pad4 [x1, x2, 0] = [x1, x2, 0, 0] from rfl]
      rw [readAsciiLoop, if_neg hlt, if_pos (by simp)]
      rw [takeWhile_nz_append acc [x1, x2, 0, 0] hacc]
      have hx1 : x1 ≠ 0 := hs x1 (by simp)
      have hx2 : x2 ≠ 0 := hs x2 (by simp)
      simp [List.takeWhile_cons, hx1, hx2]
    | [x1, x2, x3], hs =>
      have hlt : ¬(32 ≤ acc.length) := by simp at hsum; omega
      rw [show ([x1, x2, x3] ++ [0] : List Nat) = [x1, x2, x3, 0] from rfl,
        show chunk4 [x1, x2, x3, 0] = [[x1, x2, x3, 0]] from rfl]
      rw [readAsciiLoop, if_neg hlt, if_pos (by simp)]
      rw [takeWhile_nz_append acc [x1, x2, x3, 0] hacc]
      have hx1 : x1 ≠ 0 := hs x1 (by simp)
      have hx2 : x2 ≠ 0 := hs x2 (by simp)
      have hx3 : x3 ≠ 0 := hs x3 (by simp)
      simp [List.takeWhile_cons, hx1, hx2, hx3]
    | x1 :: x2 :: x3 :: x4 :: tl, hs =>
      have hlt : ¬(32 ≤ acc.length) := by
        have : (x1 :: x2 :: x3 :: x4 :: tl).length = tl.length + 4 := by simp
        omega
      have hx1 : x1 ≠ 0 := hs x1 (by simp)
      have hx2 : x2 ≠ 0 := hs x2 (by simp)
      have hx3 : x3 ≠ 0 := hs x3 (by simp)
      have hx4 : x4 ≠ 0 := hs x4 (by simp)
      rw [show (x1 :: x2 :: x3 :: x4 :: tl) ++ [0]
          = x1 :: x2 :: x3 :: x4 :: (tl ++ [0]) from by simp]
      rw [show chunk4 (x1 :: x2 :: x3 :: x4 :: (tl ++ [0]))
          = [x1, x2, x3, x4] :: chunk4 (tl ++ [0]) from by simp [chunk4]]
      rw [readAsciiLoop, if_neg hlt, if_neg (by simp; omega)]
      have hrec := ih tl (acc ++ [x1, x2, x3, x4])
        (by simp at hn ⊢; omega)
        (fun b hb => hs b (by simp [hb]))
        (by
          intro b hb
          rcases List.mem_append.mp hb with hb | hb
          · exact hacc b hb
          · rcases List.mem_cons.mp hb with rfl | hb
            · exact hx1
            · rcases List.mem_cons.mp hb with rfl | hb
              · exact hx2
              · rcases List.mem_cons.mp hb with rfl | hb
                · exact hx3
                · rcases List.mem_cons.mp hb with rfl | hb
                  · exact hx4
                  · simp at hb)
        (by simp; omega)
        (by simp at hsum ⊢; omega)
      rw [hrec]
      simp

/-- C1 amended: for every ASCII string of nonzero characters (the NUL
character is excluded: see the counterexample) whose length is at most the
32-byte span budget, encoding with the zero-terminated page-chunking rule
of write_ascii_z and decoding the resulting pages with the _read_ascii_z
rule reconstructs the string exactly. -/
theorem ascii_roundtrip (s : List Nat)
    (hascii : ∀ b ∈ s, 0 < b ∧ b < 128)
    (hlen : s.length ≤ 32) :
    read_ascii_z (write_ascii_z s 32) 32 = s := by
  have hid : asciiIgnore s = s :=
    List.filter_eq_self.mpr fun b hb => by
      simpa using (hascii b hb).2
  have hnz : ∀ b ∈ s, b ≠ 0 := fun b hb => by
    have := (hascii b hb).1
    omega
  unfold write_ascii_z read_ascii_z
  rw [hid, List.take_of_length_le hlen]
  rw [readAsciiLoop_inv s.length s [] (le_refl _) hnz (by simp) (by simp)
    (by simpa using hlen)]
  rw [List.nil_append]
  exact List.filter_eq_self.mpr fun b hb => by
    simpa using (hascii b hb).2

theorem ascii_roundtrip_witness :
    (∀ b ∈ ([72, 73] : List Nat), 0 < b ∧ b < 128) ∧
    ([72, 73] : List Nat).length ≤ 32 ∧
    read_ascii_z (write_ascii_z [72, 73] 32) 32 = [72, 73] :=
  ⟨by decide, by decide, ascii_roundtrip [72, 73] (by decide) (by decide)⟩

end AnycubicNFC
